import Mathlib

set_option maxRecDepth 10000

set_option allowUnsafeReducibility true in
attribute [semireducible] Rat.add Rat.sub Rat.mul Rat.inv Rat.ofScientific

/-! Formal model of the safe expression evaluators of Calculadora.py (the base
variant) and Calculadora-2.py (the extended variant).

Representation choices:
 - Python Fraction values are modelled as `ℚ` (Lean rationals are stored in
   lowest terms with positive denominator, exactly the Fraction invariant);
 - Python Decimal values are modelled by their exact rational value, with the
   rounding to the 50-significant-digit context (`getcontext().prec = 50`)
   that the decimal library applies to every arithmetic result made explicit
   (`roundSig 50`);
 - Python int is `ℤ`;
 - Python float values are modelled by the rational value of their shortest
   decimal representation (`str(x)`), which is the value the evaluators read
   back whenever they re-quantize a float via `Decimal(str(x))`;
 - the transcendental library primitives (math.sin, math.log, ..., and the
   decimal library's non-integral power), whose outputs are platform
   floating-point approximations, are an explicit parameter (`TransOps`) of
   the evaluation functions. -/

namespace Calculadora

/-- Python exception kinds raised by the evaluators.  `decimal.DivisionByZero`
and `decimal.DivisionUndefined` both subclass the builtin `ZeroDivisionError`,
so zero-divisor failures of both numeric domains share the `divZero` kind. -/
inductive Err
  | typeErr    -- TypeError (unsupported operator, unsupported arity)
  | nameErr    -- NameError (name or function outside the whitelist)
  | valueErr   -- ValueError (factorial domain, math domain error, isqrt of a negative)
  | divZero    -- ZeroDivisionError / decimal.DivisionByZero / decimal.DivisionUndefined
  | invalidOp  -- decimal.InvalidOperation
  | indexErr   -- IndexError (args[0] on an empty argument list)
deriving DecidableEq, Repr

/-- Numeric values flowing through the evaluator: Python int, float, Fraction
and Decimal. -/
inductive Value
  | int (n : ℤ)
  | float (q : ℚ)
  | frac (q : ℚ)
  | dec (q : ℚ)
deriving DecidableEq, Repr

/-- Whether the value is a raw Python float. -/
def Value.isFloat : Value → Bool
  | .float _ => true
  | _ => false

/-- The rational number a value denotes. -/
def Value.val : Value → ℚ
  | .int n => n
  | .float q => q
  | .frac q => q
  | .dec q => q

instance : DecidableEq (Except Err Value) := fun a b =>
  match a, b with
  | .ok x, .ok y =>
    if h : x = y then .isTrue (by rw [h]) else .isFalse (fun hh => h (Except.ok.inj hh))
  | .error x, .error y =>
    if h : x = y then .isTrue (by rw [h]) else .isFalse (fun hh => h (Except.error.inj hh))
  | .ok _, .error _ => .isFalse (fun hh => Except.noConfusion hh)
  | .error _, .ok _ => .isFalse (fun hh => Except.noConfusion hh)

/-- The two mode flags of SafeEvaluator.__init__ (fraction_mode, degrees); the
base variant only has fraction_mode and never reads a degrees flag. -/
structure Cfg where
  fractionMode : Bool
  degrees : Bool
deriving DecidableEq, Repr

/-- Exact (fraction) mode, radians. -/
def fracCfg : Cfg := ⟨true, false⟩
/-- Decimal mode, radians. -/
def decCfg : Cfg := ⟨false, false⟩
/-- Exact (fraction) mode, degrees. -/
def fracDegCfg : Cfg := ⟨true, true⟩
/-- Decimal mode, degrees. -/
def decDegCfg : Cfg := ⟨false, true⟩

/-- Binary operator kinds accepted by the grammar (ast.Add .. ast.Pow). -/
inductive BOp
  | add | sub | mul | div | mod | pow
deriving DecidableEq, Repr

/-- Unary operator kinds (ast.UAdd, ast.USub). -/
inductive UOp
  | uadd | usub
deriving DecidableEq, Repr

mutual

/-- The expression tree ast.parse(expr, mode="eval") produces, restricted to
the node kinds the calculator grammar can emit: numeric literals (integer
literals and float literals are tokenised nonnegative, signs become UnaryOp
nodes), unary and binary operators, bare names, and function calls carrying an
ordered argument sequence. -/
inductive Expr
  | intLit (n : ℕ)
  | floatLit (q : ℚ)
  | name (s : String)
  | unop (op : UOp) (e : Expr)
  | binop (op : BOp) (l r : Expr)
  | call (f : String) (args : ExprList)
deriving Repr

/-- An argument sequence of a Call node. -/
inductive ExprList
  | nil
  | cons (e : Expr) (es : ExprList)
deriving Repr

end

/-- Build an argument sequence from a Lean list of expressions. -/
def ExprList.ofList : List Expr → ExprList
  | [] => .nil
  | e :: es => .cons e (ExprList.ofList es)

/-- Floor of a rational, computed by Euclidean division of the numerator by
the denominator (kernel-reducible, unlike the Int.floor class projection). -/
def qfloor (x : ℚ) : ℤ := x.num / x.den

/-- Ceiling of a rational, kernel-reducible. -/
def qceil (x : ℚ) : ℤ := -qfloor (-x)

/-- qfloor agrees with the floor of the rational. -/
theorem qfloor_eq (x : ℚ) : qfloor x = ⌊x⌋ := Rat.floor_def.symm

/-- qceil agrees with the ceiling of the rational. -/
theorem qceil_eq (x : ℚ) : qceil x = ⌈x⌉ := by
  rw [qceil, qfloor_eq, Int.floor_neg, neg_neg]

/-- Integral power of a rational (kernel-reducible, unlike the zpow of the
field structure): a nonnegative exponent is an iterated product, a negative
one inverts. -/
def qzpow (a : ℚ) : ℤ → ℚ
  | .ofNat n => a ^ n
  | .negSucc n => (a ^ (n + 1))⁻¹

/-- qzpow agrees with the integral power of the field ℚ. -/
theorem qzpow_eq (a : ℚ) : ∀ n : ℤ, qzpow a n = a ^ n
  | .ofNat n => (zpow_natCast a n).symm
  | .negSucc n => (zpow_negSucc a n).symm

/-- Fuelled Heron iteration for the integer square root, mirroring
Nat.sqrt.iter (the guess strictly decreases, so fuel at least the guess is
enough). -/
def isqrtAux (n : ℕ) : ℕ → ℕ → ℕ
  | 0, g => g
  | fuel + 1, g =>
    let next := (g + n / g) / 2
    if next < g then isqrtAux n fuel next else g

/-- The integer square root (math.isqrt), kernel-reducible. -/
def isqrt (n : ℕ) : ℕ := if n ≤ 1 then n else isqrtAux n n (n / 2)

/-- The fuelled Heron iteration agrees with the standard one whenever the fuel
bounds the guess. -/
theorem isqrtAux_eq (n : ℕ) :
    ∀ fuel g, g ≤ fuel → isqrtAux n fuel g = Nat.sqrt.iter n g := by
  intro fuel
  induction fuel with
  | zero =>
    intro g hg
    have hg0 : g = 0 := by omega
    subst hg0
    simp [isqrtAux, Nat.sqrt.iter]
  | succ fuel ih =>
    intro g hg
    rw [isqrtAux, Nat.sqrt.iter]
    by_cases h : (g + n / g) / 2 < g
    · simp only [if_pos h, dif_pos h]
      exact ih _ (by omega)
    · simp only [if_neg h, dif_neg h]

/-- isqrt agrees with Nat.sqrt. -/
theorem isqrt_eq (n : ℕ) : isqrt n = Nat.sqrt n := by
  rw [isqrt, Nat.sqrt]
  split_ifs with h
  · rfl
  · exact isqrtAux_eq n n (n / 2) (Nat.div_le_self n 2)

/-- Fuelled base-b logarithm mirroring Nat.log. -/
def klogAux (b : ℕ) : ℕ → ℕ → ℕ
  | 0, _ => 0
  | fuel + 1, n => if b ≤ n ∧ 1 < b then klogAux b fuel (n / b) + 1 else 0

/-- Nat.log, kernel-reducible. -/
def klog (b n : ℕ) : ℕ := klogAux b n n

/-- The fuelled logarithm agrees with Nat.log whenever the fuel bounds the
argument. -/
theorem klogAux_eq (b : ℕ) : ∀ fuel n, n ≤ fuel → klogAux b fuel n = Nat.log b n := by
  intro fuel
  induction fuel with
  | zero =>
    intro n hn
    have h0 : n = 0 := by omega
    subst h0
    simp [klogAux]
  | succ fuel ih =>
    intro n hn
    rw [klogAux, Nat.log]
    by_cases h : b ≤ n ∧ 1 < b
    · have hlt : n / b < n := Nat.div_lt_self (by omega) h.2
      rw [if_pos h, dif_pos h, ih (n / b) (by omega)]
    · rw [if_neg h, dif_neg h]

/-- klog agrees with Nat.log. -/
theorem klog_eq (b n : ℕ) : klog b n = Nat.log b n := klogAux_eq b n n le_rfl

/-- Fuelled ceiling base-b logarithm mirroring Nat.clog. -/
def kclogAux (b : ℕ) : ℕ → ℕ → ℕ
  | 0, _ => 0
  | fuel + 1, n => if 1 < b ∧ 1 < n then kclogAux b fuel ((n + b - 1) / b) + 1 else 0

/-- Nat.clog, kernel-reducible. -/
def kclog (b n : ℕ) : ℕ := kclogAux b n n

/-- The fuelled ceiling logarithm agrees with Nat.clog whenever the fuel
bounds the argument. -/
theorem kclogAux_eq (b : ℕ) : ∀ fuel n, n ≤ fuel → kclogAux b fuel n = Nat.clog b n := by
  intro fuel
  induction fuel with
  | zero =>
    intro n hn
    have h0 : n = 0 := by omega
    subst h0
    simp [kclogAux]
  | succ fuel ih =>
    intro n hn
    rw [kclogAux, Nat.clog]
    by_cases h : 1 < b ∧ 1 < n
    · have hlt : (n + b - 1) / b < n := Nat.add_pred_div_lt h.1 h.2
      rw [if_pos h, dif_pos h, ih ((n + b - 1) / b) (by omega)]
    · rw [if_neg h, dif_neg h]

/-- kclog agrees with Nat.clog. -/
theorem kclog_eq (b n : ℕ) : kclog b n = Nat.clog b n := kclogAux_eq b n n le_rfl

/-- Round-half-even of a nonnegative rational to an integer: the decimal
module's default rounding mode. -/
def rhe (x : ℚ) : ℤ :=
  if x - qfloor x < 1/2 then qfloor x
  else if (1 : ℚ)/2 < x - qfloor x then qfloor x + 1
  else if qfloor x % 2 = 0 then qfloor x else qfloor x + 1

/-- Floor of the base-10 logarithm of a positive rational: the decimal
exponent of its leading significant digit. -/
def floorLog10 (q : ℚ) : ℤ :=
  if 1 ≤ q then (klog 10 (qfloor q).toNat : ℤ) else -(kclog 10 (qceil (1/q)).toNat : ℤ)

/-- The exponent of the least significant digit kept when rounding q to p
significant digits. -/
def roundSigExp (p : ℕ) (q : ℚ) : ℤ := floorLog10 |q| - (p - 1 : ℕ)

/-- Rounding a rational to p significant decimal digits (half-even): the value
a p-digit decimal context assigns to an arithmetic result. -/
def roundSig (p : ℕ) (q : ℚ) : ℚ :=
  if q = 0 then 0
  else
    (if q < 0 then -1 else 1) *
      (rhe (|q| * qzpow 10 (-(roundSigExp p q))) : ℚ) * qzpow 10 (roundSigExp p q)

/-- Decimal addition at the 50-digit working precision. -/
def decAdd (a b : ℚ) : ℚ := roundSig 50 (a + b)

/-- Decimal subtraction at the 50-digit working precision. -/
def decSub (a b : ℚ) : ℚ := roundSig 50 (a - b)

/-- Decimal multiplication at the 50-digit working precision. -/
def decMul (a b : ℚ) : ℚ := roundSig 50 (a * b)

/-- Decimal true division: a nonzero dividend over a zero divisor raises
decimal.DivisionByZero (a ZeroDivisionError subclass); 0/0 raises
decimal.InvalidOperation (not a ZeroDivisionError); otherwise the quotient is
rounded to the 50-digit context. -/
def decDiv (a b : ℚ) : Except Err ℚ :=
  if b = 0 then (if a = 0 then .error .invalidOp else .error .divZero)
  else .ok (roundSig 50 (a / b))

/-- Truncation toward zero: Python int(float) and the decimal library's
integer-division step. -/
def truncQ (x : ℚ) : ℤ := if 0 ≤ x then qfloor x else qceil x

/-- Decimal remainder (Decimal %): sign follows the dividend; a zero divisor
signals InvalidOperation, as does an integer quotient needing more than 50
digits; within those bounds the remainder is exact. -/
def decMod (a b : ℚ) : Except Err ℚ :=
  if b = 0 then .error .invalidOp
  else if 10 ^ 50 ≤ (truncQ (a / b)).natAbs then .error .invalidOp
  else .ok (a - b * truncQ (a / b))

/-- Floor of the base-100 logarithm of a positive rational: the decimal
exponent of the leading digit of its square root. -/
def floorLog100 (q : ℚ) : ℤ :=
  if 1 ≤ q then (klog 100 (qfloor q).toNat : ℤ) else -(kclog 100 (qceil (1/q)).toNat : ℤ)

/-- Nearest integer (ties to even) to the real number √N / d, for d > 0. -/
def sqrtNearest (N d : ℕ) : ℕ :=
  let f := isqrt N / d
  if d ^ 2 * (2 * f + 1) ^ 2 < 4 * N then f + 1
  else if 4 * N < d ^ 2 * (2 * f + 1) ^ 2 then f
  else if f % 2 = 0 then f else f + 1

/-- Decimal.sqrt at the 50-digit working precision: InvalidOperation for a
negative operand, otherwise the square root correctly rounded (half-even) to
50 significant digits. -/
def decSqrt (q : ℚ) : Except Err ℚ :=
  if q < 0 then .error .invalidOp
  else if q = 0 then .ok 0
  else
    let e : ℤ := floorLog100 q - 49
    let a := q.num.toNat
    let b := q.den
    let c : ℕ :=
      if e ≤ 0 then sqrtNearest (a * b * 10 ^ (2 * (-e).toNat)) b
      else sqrtNearest (a * b) (b * 10 ^ e.toNat)
    .ok ((c : ℚ) * qzpow 10 e)

/-- The primitives the evaluators bridge through whose outputs lie outside
the exact rational model: the float functions of the math module (sin, cos,
tan, asin, acos, atan, log, log10, two-argument log, exp), the decimal
library's non-integral power, and the stand-in `dpowInf` for the non-finite
Decimal special value Infinity, which Decimal power returns (with no signal
raised) for a base of 0 and a negative exponent.  The float functions are
platform floating-point / transcendental approximations; `dpowInf` is a value
the rational-valued model deliberately leaves uninterpreted, so no theorem
quantified over the primitives can assert anything concrete about it. -/
structure TransOps where
  fsin : ℚ → ℚ
  fcos : ℚ → ℚ
  ftan : ℚ → ℚ
  fasin : ℚ → ℚ
  facos : ℚ → ℚ
  fatan : ℚ → ℚ
  fln : ℚ → ℚ
  flog10 : ℚ → ℚ
  flogB : ℚ → ℚ → ℚ
  fexp : ℚ → ℚ
  dpow : ℚ → ℚ → ℚ
  dpowInf : ℚ

/-- A concrete instantiation of the primitives, used to run the model on
closed inputs whose evaluation never reaches a transcendental call. -/
def noOps : TransOps :=
  ⟨fun _ => 0, fun _ => 0, fun _ => 0, fun _ => 0, fun _ => 0, fun _ => 0,
   fun _ => 0, fun _ => 0, fun _ _ => 0, fun _ => 0, fun _ _ => 0, 0⟩

/-- Decimal power: an integral exponent is an exact power rounded to the
50-digit context, with InvalidOperation for 0 ** 0.  A base of 0 with a
negative exponent, integral or not, makes the library return the special
value Infinity with no signal raised, i.e. the operation succeeds; the model
carries that non-finite result as the uninterpreted `dpowInf`.  A non-integral
exponent with a nonzero base goes through the library's transcendental path:
InvalidOperation for a negative base, 0 for base 0 with a positive
exponent. -/
def decPow (ops : TransOps) (a b : ℚ) : Except Err ℚ :=
  if b.den = 1 then
    if a = 0 then
      if b.num = 0 then .error .invalidOp
      else if b.num < 0 then .ok ops.dpowInf
      else .ok 0
    else .ok (roundSig 50 (qzpow a b.num))
  else
    if a = 0 then
      if b < 0 then .ok ops.dpowInf else .ok 0
    else if a < 0 then .error .invalidOp
    else .ok (ops.dpow a b)

/-- The convergents loop of Fraction.limit_denominator, fuelled (the
denominator strictly decreases, so q.den steps of fuel always suffice). -/
def ldLoop (maxd : ℤ) : ℕ → ℤ × ℤ × ℤ × ℤ → ℤ → ℤ → (ℤ × ℤ × ℤ × ℤ) × ℤ × ℤ
  | 0, st, n, d => (st, n, d)
  | fuel + 1, (p0, q0, p1, q1), n, d =>
    if d = 0 then ((p0, q0, p1, q1), n, d)
    else
      let a := n.fdiv d
      let q2 := q0 + a * q1
      if maxd < q2 then ((p0, q0, p1, q1), n, d)
      else ldLoop maxd fuel (p1, q1, p0 + a * p1, q2) d (n - a * d)

/-- Fraction.limit_denominator(maxd): the closest fraction with denominator at
most maxd, computed by CPython's continued-fraction algorithm. -/
def limitDen (maxd : ℕ) (q : ℚ) : ℚ :=
  if q.den ≤ maxd then q
  else
    let s := ldLoop maxd q.den (0, 1, 1, 0) q.num q.den
    let p0 := s.1.1
    let q0 := s.1.2.1
    let p1 := s.1.2.2.1
    let q1 := s.1.2.2.2
    let d := s.2.2
    let k := ((maxd : ℤ) - q0).fdiv q1
    if 2 * d * (q0 + k * q1) ≤ (q.den : ℤ) then (p1 : ℚ) / (q1 : ℚ)
    else ((p0 + k * p1 : ℤ) : ℚ) / ((q0 + k * q1 : ℤ) : ℚ)

/-- str(math.pi): the shortest decimal representation of the float constant
math.pi, which is the value Name "pi" evaluates to. -/
def piFloat : ℚ := 3141592653589793 / 10 ^ 15

/-- str(math.e). -/
def eFloat : ℚ := 2718281828459045 / 10 ^ 15

/-- SafeEvaluator._to_decimal: Decimal and int convert exactly, a float via
Decimal(str(x)) (the value of its shortest decimal representation), a Fraction
by the context-rounded division Decimal(numerator) / Decimal(denominator). -/
def toDecimal : Value → ℚ
  | .dec q => q
  | .int n => n
  | .float q => q
  | .frac q => roundSig 50 q

/-- SafeEvaluator._to_fraction: Fraction and int are exact, a Decimal converts
exactly through its digit string, a float through
Fraction(x).limit_denominator(1_000_000). -/
def toFraction : Value → ℚ
  | .frac q => q
  | .int n => n
  | .dec q => q
  | .float q => limitDen 1000000 q

/-- The to_float helper of _call (float(x), or numerator/denominator for a
Fraction): the bridging real number, idealised by its exact rational value. -/
def toFloat : Value → ℚ
  | .frac q => q
  | .dec q => q
  | .int n => n
  | .float q => q

namespace Calc2

/-- SafeEvaluator._binop of Calculadora-2.py: coerce both operands into the
domain selected by fraction_mode, then apply the operator.  Fraction % is
Python floor-division remainder; Fraction ** keeps an integral exponent exact
and otherwise falls back to Decimal exponentiation of the Decimal coercions. -/
def binop (ops : TransOps) (c : Cfg) (op : BOp) (a b : Value) : Except Err Value :=
  if c.fractionMode then
    let A := toFraction a
    let B := toFraction b
    match op with
    | .add => .ok (.frac (A + B))
    | .sub => .ok (.frac (A - B))
    | .mul => .ok (.frac (A * B))
    | .div => if B = 0 then .error .divZero else .ok (.frac (A / B))
    | .mod => if B = 0 then .error .divZero else .ok (.frac (A - B * qfloor (A / B)))
    | .pow =>
      if B.den = 1 then
        if A = 0 ∧ B.num < 0 then .error .divZero
        else .ok (.frac (qzpow A B.num))
      else (decPow ops (toDecimal (.frac A)) (toDecimal (.frac B))).map .dec
  else
    let A := toDecimal a
    let B := toDecimal b
    match op with
    | .add => .ok (.dec (decAdd A B))
    | .sub => .ok (.dec (decSub A B))
    | .mul => .ok (.dec (decMul A B))
    | .div => (decDiv A B).map .dec
    | .mod => (decMod A B).map .dec
    | .pow => (decPow ops A B).map .dec

/-- SafeEvaluator._unary (identical in both variants): coerce into the active
domain and apply plus or minus; the Decimal unary operators apply context rounding. -/
def unary (c : Cfg) (op : UOp) (a : Value) : Value :=
  if c.fractionMode then
    let A := toFraction a
    match op with
    | .uadd => .frac A
    | .usub => .frac (-A)
  else
    let A := toDecimal a
    match op with
    | .uadd => .dec (roundSig 50 A)
    | .usub => .dec (roundSig 50 (-A))

/-- SafeEvaluator._call of Calculadora-2.py: the whitelisted functions.  Only
log inspects the argument count; every other function reads args[0] (IndexError
when the list is empty) and ignores any extra arguments. -/
def call (ops : TransOps) (c : Cfg) (f : String) (args : List Value) : Except Err Value :=
  if f = "sin" ∨ f = "cos" ∨ f = "tan" then
    match args with
    | [] => .error .indexErr
    | x :: _ =>
      let v := toFloat x
      let v := if c.degrees then v * (piFloat / 180) else v
      if f = "sin" then .ok (.dec (ops.fsin v))
      else if f = "cos" then .ok (.dec (ops.fcos v))
      else .ok (.dec (ops.ftan v))
  else if f = "asin" ∨ f = "acos" ∨ f = "atan" then
    match args with
    | [] => .error .indexErr
    | x :: _ =>
      let v := toFloat x
      if (f = "asin" ∨ f = "acos") ∧ (v < -1 ∨ 1 < v) then .error .valueErr
      else
        let r := if f = "asin" then ops.fasin v
                 else if f = "acos" then ops.facos v
                 else ops.fatan v
        let r := if c.degrees then r * (180 / piFloat) else r
        .ok (.dec r)
  else if f = "sqrt" then
    match args with
    | [] => .error .indexErr
    | x :: _ =>
      if c.fractionMode then
        let X := toFraction x
        if X.num < 0 then .error .valueErr
        else
          let rn := isqrt X.num.toNat
          let rd := isqrt X.den
          if rn * rn = X.num.toNat ∧ rd * rd = X.den then .ok (.frac ((rn : ℚ) / (rd : ℚ)))
          else (decSqrt (toDecimal (.frac X))).map .dec
      else (decSqrt (toDecimal x)).map .dec
  else if f = "ln" then
    match args with
    | [] => .error .indexErr
    | x :: _ =>
      let X := toDecimal x
      if X ≤ 0 then .error .valueErr else .ok (.dec (ops.fln X))
  else if f = "log" then
    match args with
    | [x] =>
      let X := toFloat x
      if X ≤ 0 then .error .valueErr else .ok (.dec (ops.flog10 X))
    | [x, b] =>
      let X := toFloat x
      let B := toFloat b
      if X ≤ 0 ∨ B ≤ 0 then .error .valueErr
      else if B = 1 then .error .divZero
      else .ok (.dec (ops.flogB X B))
    | _ => .error .typeErr
  else if f = "exp" then
    match args with
    | [] => .error .indexErr
    | x :: _ => .ok (.dec (ops.fexp (toFloat x)))
  else if f = "fact" ∨ f = "factorial" then
    match args with
    | [] => .error .indexErr
    | x :: _ =>
      let n : Except Err ℤ :=
        match x with
        | .frac q => if q.den ≠ 1 then .error .valueErr else .ok q.num
        | .dec q => if q.den ≠ 1 then .error .valueErr else .ok q.num
        | .int m => .ok m
        | .float q => .ok (truncQ q)
      match n with
      | .error e => .error e
      | .ok m => if m < 0 then .error .valueErr else .ok (.int (Nat.factorial m.toNat))
  else .error .nameErr

mutual

/-- SafeEvaluator._eval_node of Calculadora-2.py: structural dispatch on the
node kind; literals are returned raw, pi and e evaluate to the float constants
math.pi and math.e, call arguments are evaluated eagerly left to right. -/
def evalNode (ops : TransOps) (c : Cfg) : Expr → Except Err Value
  | .binop op l r => do
    let a ← evalNode ops c l
    let b ← evalNode ops c r
    binop ops c op a b
  | .unop op e => do
    let a ← evalNode ops c e
    pure (unary c op a)
  | .intLit n => .ok (.int n)
  | .floatLit q => .ok (.float q)
  | .name s =>
    if s = "pi" then .ok (.float piFloat)
    else if s = "e" then .ok (.float eFloat)
    else .error .nameErr
  | .call f es => do
    let vs ← evalArgs ops c es
    call ops c f vs

/-- Left-to-right evaluation of the argument list of a Call node. -/
def evalArgs (ops : TransOps) (c : Cfg) : ExprList → Except Err (List Value)
  | .nil => .ok []
  | .cons e es => do
    let v ← evalNode ops c e
    let vs ← evalArgs ops c es
    pure (v :: vs)

end

end Calc2

namespace CalcBase

/-- SafeEvaluator._binop of Calculadora.py: like the extended variant but with
no Mod case, so ast.Mod falls through to the trailing TypeError. -/
def binop (ops : TransOps) (c : Cfg) (op : BOp) (a b : Value) : Except Err Value :=
  if c.fractionMode then
    let A := toFraction a
    let B := toFraction b
    match op with
    | .add => .ok (.frac (A + B))
    | .sub => .ok (.frac (A - B))
    | .mul => .ok (.frac (A * B))
    | .div => if B = 0 then .error .divZero else .ok (.frac (A / B))
    | .mod => .error .typeErr
    | .pow =>
      if B.den = 1 then
        if A = 0 ∧ B.num < 0 then .error .divZero
        else .ok (.frac (qzpow A B.num))
      else (decPow ops (toDecimal (.frac A)) (toDecimal (.frac B))).map .dec
  else
    let A := toDecimal a
    let B := toDecimal b
    match op with
    | .add => .ok (.dec (decAdd A B))
    | .sub => .ok (.dec (decSub A B))
    | .mul => .ok (.dec (decMul A B))
    | .div => (decDiv A B).map .dec
    | .mod => .error .typeErr
    | .pow => (decPow ops A B).map .dec

/-- SafeEvaluator._call of Calculadora.py: sqrt is the only whitelisted
function, with the same exact/decimal logic as the extended variant. -/
def call (c : Cfg) (f : String) (args : List Value) : Except Err Value :=
  if f = "sqrt" then
    match args with
    | [] => .error .indexErr
    | x :: _ =>
      if c.fractionMode then
        let X := toFraction x
        if X.num < 0 then .error .valueErr
        else
          let rn := isqrt X.num.toNat
          let rd := isqrt X.den
          if rn * rn = X.num.toNat ∧ rd * rd = X.den then .ok (.frac ((rn : ℚ) / (rd : ℚ)))
          else (decSqrt (toDecimal (.frac X))).map .dec
      else (decSqrt (toDecimal x)).map .dec
  else .error .nameErr

mutual

/-- SafeEvaluator._eval_node of Calculadora.py: bare names are always rejected
(no constants), and every call is checked to carry exactly one already
evaluated argument before dispatch. -/
def evalNode (ops : TransOps) (c : Cfg) : Expr → Except Err Value
  | .binop op l r => do
    let a ← evalNode ops c l
    let b ← evalNode ops c r
    binop ops c op a b
  | .unop op e => do
    let a ← evalNode ops c e
    pure (Calc2.unary c op a)
  | .intLit n => .ok (.int n)
  | .floatLit q => .ok (.float q)
  | .name _ => .error .nameErr
  | .call f es => do
    let vs ← evalArgs ops c es
    if vs.length ≠ 1 then .error .typeErr
    else call c f vs

/-- Left-to-right evaluation of the argument list of a Call node. -/
def evalArgs (ops : TransOps) (c : Cfg) : ExprList → Except Err (List Value)
  | .nil => .ok []
  | .cons e es => do
    let v ← evalNode ops c e
    let vs ← evalArgs ops c es
    pure (v :: vs)

end

end CalcBase

/-! Arithmetic facts about the rounding model and the two remainder
operations, used by the claim theorems below. -/

/-- The leading-digit exponent bounds its positive rational from below. -/
theorem zpow_floorLog10_le {x : ℚ} (hx : 0 < x) : (10 : ℚ) ^ floorLog10 x ≤ x := by
  unfold floorLog10
  simp only [qfloor_eq, qceil_eq, klog_eq, kclog_eq]
  split_ifs with h1
  · have hfl : (1 : ℤ) ≤ ⌊x⌋ := Int.le_floor.mpr (by exact_mod_cast h1)
    have hnn : (0 : ℤ) ≤ ⌊x⌋ := by omega
    have hn0 : (⌊x⌋).toNat ≠ 0 := by omega
    have h2 : (10 : ℕ) ^ Nat.log 10 (⌊x⌋).toNat ≤ (⌊x⌋).toNat := Nat.pow_log_le_self 10 hn0
    have h3 : (((⌊x⌋).toNat : ℤ) : ℚ) ≤ x := by
      rw [Int.toNat_of_nonneg hnn]; exact Int.floor_le x
    calc (10 : ℚ) ^ (Nat.log 10 (⌊x⌋).toNat : ℤ)
        = ((10 ^ Nat.log 10 (⌊x⌋).toNat : ℕ) : ℚ) := by
          rw [zpow_natCast]; push_cast; ring
      _ ≤ (((⌊x⌋).toNat : ℕ) : ℚ) := by exact_mod_cast h2
      _ ≤ x := by exact_mod_cast h3
  · push_neg at h1
    have hix : 1 < 1 / x := by rw [lt_div_iff₀ hx]; linarith
    have h2 : ((⌈1 / x⌉).toNat : ℚ) ≤ (10 : ℚ) ^ (Nat.clog 10 (⌈1 / x⌉).toNat : ℕ) := by
      exact_mod_cast Nat.le_pow_clog (by norm_num) _
    have h3 : 1 / x ≤ (10 : ℚ) ^ (Nat.clog 10 (⌈1 / x⌉).toNat : ℕ) := by
      refine le_trans (le_trans (Int.le_ceil (1 / x)) ?_) h2
      exact_mod_cast Int.self_le_toNat ⌈1 / x⌉
    have hpow : (0 : ℚ) < (10 : ℚ) ^ (Nat.clog 10 (⌈1 / x⌉).toNat : ℕ) := by positivity
    rw [zpow_neg, zpow_natCast, ← one_div]
    exact (one_div_le hpow hx).mpr h3

/-- Round-half-even of a rational at least 1 is positive. -/
theorem rhe_pos {y : ℚ} (hy : 1 ≤ y) : 0 < rhe y := by
  have h1 : (1 : ℤ) ≤ ⌊y⌋ := Int.le_floor.mpr (by exact_mod_cast hy)
  unfold rhe
  simp only [qfloor_eq]
  split_ifs <;> omega

/-- Context rounding preserves strict negativity. -/
theorem roundSig_neg {p : ℕ} {q : ℚ} (h : q < 0) : roundSig p q < 0 := by
  have hq0 : q ≠ 0 := ne_of_lt h
  have habs : (0 : ℚ) < |q| := abs_pos.mpr hq0
  unfold roundSig
  rw [if_neg hq0, if_pos h]
  simp only [qzpow_eq]
  have hle : roundSigExp p q ≤ floorLog10 |q| := by
    unfold roundSigExp; omega
  have h10 : (10 : ℚ) ^ roundSigExp p q ≤ (10 : ℚ) ^ floorLog10 |q| :=
    zpow_le_zpow_right₀ (by norm_num) hle
  have h1 : (10 : ℚ) ^ roundSigExp p q ≤ |q| := le_trans h10 (zpow_floorLog10_le habs)
  have hy : 1 ≤ |q| * (10 : ℚ) ^ (-(roundSigExp p q)) := by
    have hpos : (0 : ℚ) < (10 : ℚ) ^ (-(roundSigExp p q)) := zpow_pos (by norm_num) _
    have h2 := mul_le_mul_of_nonneg_right h1 (le_of_lt hpos)
    rw [← zpow_add₀ (by norm_num : (10 : ℚ) ≠ 0)] at h2
    simpa using h2
  have hc : 0 < rhe (|q| * (10 : ℚ) ^ (-(roundSigExp p q))) := rhe_pos hy
  have hprod : (0 : ℚ) <
      (rhe (|q| * (10 : ℚ) ^ (-(roundSigExp p q))) : ℚ) * (10 : ℚ) ^ roundSigExp p q :=
    mul_pos (by exact_mod_cast hc) (zpow_pos (by norm_num) _)
  nlinarith [hprod]

/-- Rewriting a remainder as divisor times fractional part. -/
theorem sub_mul_div_eq {a b : ℚ} (t : ℚ) (hb : b ≠ 0) : a - b * t = b * (a / b - t) := by
  have hcancel : b * (a / b) = a := by field_simp
  rw [mul_sub, hcancel]

/-- The floor remainder is nonnegative for a positive divisor. -/
theorem floorRem_nonneg {a b : ℚ} (hb : 0 < b) : 0 ≤ a - b * ⌊a / b⌋ := by
  rw [sub_mul_div_eq _ (ne_of_gt hb)]
  exact mul_nonneg (le_of_lt hb) (sub_nonneg.mpr (Int.floor_le (a / b)))

/-- The floor remainder is nonpositive for a negative divisor. -/
theorem floorRem_nonpos {a b : ℚ} (hb : b < 0) : a - b * ⌊a / b⌋ ≤ 0 := by
  rw [sub_mul_div_eq _ (ne_of_lt hb)]
  exact mul_nonpos_of_nonpos_of_nonneg (le_of_lt hb)
    (sub_nonneg.mpr (Int.floor_le (a / b)))

/-- The truncating remainder keeps the sign of a nonnegative dividend. -/
theorem truncRem_nonneg {a b : ℚ} (hb : b ≠ 0) (ha : 0 ≤ a) : 0 ≤ a - b * truncQ (a / b) := by
  rcases lt_or_gt_of_ne hb with hneg | hpos
  · -- b < 0, so a / b ≤ 0
    have hx : a / b ≤ 0 := div_nonpos_iff.mpr (Or.inl ⟨ha, le_of_lt hneg⟩)
    rcases eq_or_lt_of_le hx with hx0 | hxlt
    · have hz : truncQ (a / b) = 0 := by unfold truncQ; rw [if_pos hx0.ge, hx0, qfloor_eq]; simp
      rw [hz]; simpa using ha
    · have ht : truncQ (a / b) = ⌈a / b⌉ := by
        unfold truncQ; rw [if_neg (not_le.mpr hxlt), qceil_eq]
      rw [ht, sub_mul_div_eq _ hb]
      have hfac : a / b - (⌈a / b⌉ : ℚ) ≤ 0 := by
        simpa using sub_nonpos.mpr (Int.le_ceil (a / b))
      nlinarith [hfac]
  · have ht : truncQ (a / b) = ⌊a / b⌋ := by
      unfold truncQ; rw [if_pos (div_nonneg ha (le_of_lt hpos)), qfloor_eq]
    rw [ht]; exact floorRem_nonneg hpos

/-- The truncating remainder keeps the sign of a nonpositive dividend. -/
theorem truncRem_nonpos {a b : ℚ} (hb : b ≠ 0) (ha : a ≤ 0) : a - b * truncQ (a / b) ≤ 0 := by
  rcases lt_or_gt_of_ne hb with hneg | hpos
  · have hx : 0 ≤ a / b := div_nonneg_iff.mpr (Or.inr ⟨ha, le_of_lt hneg⟩)
    have ht : truncQ (a / b) = ⌊a / b⌋ := by unfold truncQ; rw [if_pos hx, qfloor_eq]
    rw [ht]; exact floorRem_nonpos hneg
  · have hx : a / b ≤ 0 := div_nonpos_iff.mpr (Or.inr ⟨ha, le_of_lt hpos⟩)
    rcases eq_or_lt_of_le hx with hx0 | hxlt
    · have hz : truncQ (a / b) = 0 := by unfold truncQ; rw [if_pos hx0.ge, hx0, qfloor_eq]; simp
      rw [hz]; simpa using ha
    · have ht : truncQ (a / b) = ⌈a / b⌉ := by
        unfold truncQ; rw [if_neg (not_le.mpr hxlt), qceil_eq]
      rw [ht, sub_mul_div_eq _ hb]
      exact mul_nonpos_of_nonneg_of_nonpos (le_of_lt hpos)
        (by simpa using sub_nonpos.mpr (Int.le_ceil (a / b)))

/-- A negative rational has a negative numerator. -/
theorem num_neg_of_neg {q : ℚ} (h : q < 0) : q.num < 0 :=
  not_le.mp (fun hn => absurd (Rat.num_nonneg.mp hn) (not_le.mpr h))

/-- True when a result is an error or carries a non-float value. -/
def okNotFloat : Except Err Value → Bool
  | .ok v => !v.isFloat
  | .error _ => true

/-- Wrapping a rational result as a Decimal value never produces a float. -/
theorem okNotFloat_map_dec (x : Except Err ℚ) : okNotFloat (Except.map Value.dec x) = true := by
  cases x <;> rfl

/-- The operator layer never returns a raw float: both domains coerce first. -/
theorem binop_no_float (ops : TransOps) (c : Cfg) (op : BOp) (a b : Value) :
    okNotFloat (Calc2.binop ops c op a b) = true := by
  rcases c with ⟨fm, dg⟩
  cases fm <;> cases op <;>
    simp only [Calc2.binop] <;>
    first
      | rfl
      | apply okNotFloat_map_dec
      | (split_ifs <;> first | rfl | apply okNotFloat_map_dec)

/-- The unary layer never returns a raw float. -/
theorem unary_no_float (c : Cfg) (op : UOp) (a : Value) :
    (Calc2.unary c op a).isFloat = false := by
  rcases c with ⟨fm, dg⟩
  cases fm <;> cases op <;> rfl

/-- The function layer never returns a raw float: every whitelisted function
returns a Decimal, a Fraction or an int. -/
theorem call_no_float (ops : TransOps) (c : Cfg) (f : String) (args : List Value) :
    okNotFloat (Calc2.call ops c f args) = true := by
  unfold Calc2.call
  dsimp only
  repeat' (first | rfl | apply okNotFloat_map_dec | split)

/-- C1: the factorial entry of the function whitelist is meant to demand a
nonnegative integer operand, and does raise ValueError for a fractional
Fraction or Decimal and for negative integers, but a float literal argument
reaches the bare int(x) fallback, which truncates: factorial(2.5) evaluates to
2 in both modes instead of failing, while factorial(5) = 120 and
factorial(-1) fails as documented. -/
theorem factorial_domain_check :
    Calc2.evalNode noOps decCfg (.call "factorial" (.ofList [.floatLit (5/2)])) = .ok (.int 2)
    ∧ Calc2.evalNode noOps fracCfg (.call "factorial" (.ofList [.floatLit (5/2)])) = .ok (.int 2)
    ∧ Calc2.evalNode noOps decCfg (.call "factorial" (.ofList [.intLit 5])) = .ok (.int 120)
    ∧ Calc2.evalNode noOps fracCfg (.call "fact" (.ofList [.intLit 5])) = .ok (.int 120)
    ∧ Calc2.evalNode noOps decCfg (.call "factorial" (.ofList [.unop .usub (.intLit 1)]))
        = .error .valueErr
    ∧ Calc2.evalNode noOps fracCfg (.call "factorial" (.ofList [.unop .usub (.intLit 1)]))
        = .error .valueErr
    ∧ Calc2.evalNode noOps fracCfg (.call "factorial" (.ofList [.binop .div (.intLit 5) (.intLit 2)]))
        = .error .valueErr := by
  refine ⟨?_, ?_, ?_, ?_, ?_, ?_, ?_⟩ <;> with_unfolding_all decide

/-- C2 counterexample: evaluating the bare constant pi hands the raw float
math.pi to the host, not a high-precision Decimal. -/
theorem pi_returns_raw_float :
    Calc2.evalNode noOps decCfg (.name "pi") = .ok (.float piFloat)
    ∧ (Value.float piFloat).isFloat = true :=
  ⟨rfl, rfl⟩

/-- C2 (amended): the operator, unary and function layers never return a raw
float (floats are re-quantized into the active domain when consumed), but
Literal and ConstantRef nodes are returned unconverted, so a bare float
literal or a bare pi or e returns a raw float to the host. -/
theorem float_requantized_only_at_operators :
    (∀ ops c op a b, okNotFloat (Calc2.binop ops c op a b) = true)
    ∧ (∀ c op a, (Calc2.unary c op a).isFloat = false)
    ∧ (∀ ops c f args, okNotFloat (Calc2.call ops c f args) = true)
    ∧ Calc2.evalNode noOps decCfg (.name "pi") = .ok (.float piFloat)
    ∧ Calc2.evalNode noOps fracCfg (.name "e") = .ok (.float eFloat)
    ∧ Calc2.evalNode noOps decCfg (.floatLit (5/2)) = .ok (.float (5/2)) :=
  ⟨binop_no_float, unary_no_float, call_no_float, rfl, rfl, rfl⟩

/-- C3: Pow in exact mode with an exponent that coerces to a Rational of
denominator 1 is the exact integral power of the Fraction base (negative
exponents invert, whenever the power exists, which excludes only base 0 with
a negative exponent); a non-integral exponent falls back to Decimal
exponentiation of the Decimal coercions; decimal mode is always Decimal
exponentiation; and (2/3) ** 3 in exact mode is exactly 8/27. -/
theorem pow_exactness :
    (∀ ops a b, (toFraction b).den = 1 → (toFraction a ≠ 0 ∨ 0 ≤ (toFraction b).num) →
      Calc2.binop ops fracCfg .pow a b = .ok (.frac ((toFraction a) ^ (toFraction b).num))
      ∧ CalcBase.binop ops fracCfg .pow a b = .ok (.frac ((toFraction a) ^ (toFraction b).num)))
    ∧ (∀ ops a b, (toFraction b).den ≠ 1 →
      Calc2.binop ops fracCfg .pow a b
        = (decPow ops (toDecimal (.frac (toFraction a)))
            (toDecimal (.frac (toFraction b)))).map .dec)
    ∧ (∀ ops a b,
      Calc2.binop ops decCfg .pow a b = (decPow ops (toDecimal a) (toDecimal b)).map .dec)
    ∧ Calc2.evalNode noOps fracCfg
        (.binop .pow (.binop .div (.intLit 2) (.intLit 3)) (.intLit 3)) = .ok (.frac (8/27)) := by
  refine ⟨?_, ?_, ?_, by with_unfolding_all decide⟩
  · intro ops a b hden hnz
    have hcond : ¬(toFraction a = 0 ∧ (toFraction b).num < 0) := by
      rcases hnz with h | h
      · exact fun hc => h hc.1
      · exact fun hc => absurd hc.2 (not_lt.mpr h)
    have himp : toFraction a = 0 → 0 ≤ toFraction b := fun h0 => by
      rcases hnz with h | h
      · exact absurd h0 h
      · exact Rat.num_nonneg.mp h
    constructor
    · simp only [Calc2.binop, fracCfg, hden, hcond, qzpow_eq]
      simp [hden, hcond, qzpow_eq]
    · simp only [CalcBase.binop, fracCfg, hden, hcond, qzpow_eq]
      simp [hden, hcond, qzpow_eq]
  · intro ops a b hden
    simp [Calc2.binop, fracCfg, hden]
  · intro ops a b
    rfl

/-- C3 witness: the general integral-power case instantiated at (2/3) ** 3. -/
theorem pow_exactness_witness :
    Calc2.binop noOps fracCfg .pow (.frac (2/3)) (.int 3) = .ok (.frac (8/27)) := by
  have h := (pow_exactness.1 noOps (.frac (2/3)) (.int 3) (by with_unfolding_all decide)
    (Or.inl (by with_unfolding_all decide))).1
  exact h.trans (by with_unfolding_all decide)

/-- C4: sqrt in exact mode returns the exact Rational root when the numerator
and denominator of the operand are both perfect squares (the returned root
squares back to the operand); otherwise it falls back to the Decimal square
root of the Decimal coercion; in decimal mode it is the Decimal square root
directly, in both variants; and sqrt(4/9) in exact mode is exactly 2/3. -/
theorem sqrt_modes :
    (∀ ops q, 0 ≤ q →
      isqrt q.num.toNat * isqrt q.num.toNat = q.num.toNat →
      isqrt q.den * isqrt q.den = q.den →
      Calc2.call ops fracCfg "sqrt" [.frac q]
          = .ok (.frac ((isqrt q.num.toNat : ℚ) / (isqrt q.den : ℚ)))
        ∧ ((isqrt q.num.toNat : ℚ) / (isqrt q.den : ℚ)) ^ 2 = q)
    ∧ (∀ ops q, 0 ≤ q →
      ¬(isqrt q.num.toNat * isqrt q.num.toNat = q.num.toNat
          ∧ isqrt q.den * isqrt q.den = q.den) →
      Calc2.call ops fracCfg "sqrt" [.frac q] = (decSqrt (toDecimal (.frac q))).map .dec)
    ∧ (∀ ops v, Calc2.call ops decCfg "sqrt" [v] = (decSqrt (toDecimal v)).map .dec)
    ∧ (∀ v, CalcBase.call decCfg "sqrt" [v] = (decSqrt (toDecimal v)).map .dec)
    ∧ Calc2.evalNode noOps fracCfg (.call "sqrt" (.ofList [.binop .div (.intLit 4) (.intLit 9)]))
        = .ok (.frac (2/3))
    ∧ CalcBase.evalNode noOps fracCfg
        (.call "sqrt" (.ofList [.binop .div (.intLit 4) (.intLit 9)])) = .ok (.frac (2/3)) := by
  refine ⟨?_, ?_, fun ops v => rfl, fun v => rfl, by decide, by decide⟩
  · intro ops q h0 hsn hsd
    have hnum : ¬(q.num < 0) := not_lt.mpr (Rat.num_nonneg.mpr h0)
    have hunfold : Calc2.call ops fracCfg "sqrt" [.frac q]
        = (if q.num < 0 then .error .valueErr
           else if isqrt q.num.toNat * isqrt q.num.toNat = q.num.toNat
                    ∧ isqrt q.den * isqrt q.den = q.den
                then .ok (.frac ((isqrt q.num.toNat : ℚ) / (isqrt q.den : ℚ)))
                else (decSqrt (toDecimal (.frac q))).map .dec) := rfl
    constructor
    · rw [hunfold, if_neg hnum, if_pos ⟨hsn, hsd⟩]
    · have hnn : (0 : ℤ) ≤ q.num := Rat.num_nonneg.mpr h0
      have hc1 : ((isqrt q.num.toNat : ℚ)) ^ 2 = ((q.num.toNat : ℕ) : ℚ) := by
        have hn2 : isqrt q.num.toNat ^ 2 = q.num.toNat := by rw [pow_two]; exact hsn
        exact_mod_cast hn2
      have hc2 : ((isqrt q.den : ℚ)) ^ 2 = ((q.den : ℕ) : ℚ) := by
        have hd2 : isqrt q.den ^ 2 = q.den := by rw [pow_two]; exact hsd
        exact_mod_cast hd2
      have hc3 : ((q.num.toNat : ℕ) : ℚ) = (q.num : ℚ) := by
        exact_mod_cast Int.toNat_of_nonneg hnn
      rw [div_pow, hc1, hc2, hc3]
      exact Rat.num_div_den q
  · intro ops q h0 hns
    have hnum : ¬(q.num < 0) := not_lt.mpr (Rat.num_nonneg.mpr h0)
    have hunfold : Calc2.call ops fracCfg "sqrt" [.frac q]
        = (if q.num < 0 then .error .valueErr
           else if isqrt q.num.toNat * isqrt q.num.toNat = q.num.toNat
                    ∧ isqrt q.den * isqrt q.den = q.den
                then .ok (.frac ((isqrt q.num.toNat : ℚ) / (isqrt q.den : ℚ)))
                else (decSqrt (toDecimal (.frac q))).map .dec) := rfl
    rw [hunfold, if_neg hnum, if_neg hns]

/-- C4 witness: the exact branch instantiated at sqrt(4/9), and the Decimal
fallback instantiated at sqrt(2), whose 50-digit value is evaluated. -/
theorem sqrt_modes_witness :
    Calc2.call noOps fracCfg "sqrt" [.frac (4/9)] = .ok (.frac (2/3))
    ∧ Calc2.call noOps fracCfg "sqrt" [.frac 2]
        = .ok (.dec (14142135623730950488016887242096980785696718753769 / 10 ^ 49)) := by
  constructor
  · exact ((sqrt_modes.1 noOps (4/9) (by decide) (by decide) (by decide)).1).trans (by decide)
  · exact (sqrt_modes.2.1 noOps 2 (by decide) (by decide)).trans (by decide)

/-- C5 counterexample: in the Rational domain of the extended variant, mod of
dividend -1 by divisor 3 returns 2, which is positive while the dividend is
negative: the sign follows the divisor, not the dividend. -/
theorem mod_sign_counterexample :
    Calc2.binop noOps fracCfg .mod (.int (-1)) (.int 3) = .ok (.frac 2)
    ∧ ((-1 : ℚ) < 0 ∧ (0 : ℚ) < 2) :=
  ⟨by decide, by norm_num⟩

/-- C5 (amended): the extended variant supports Mod in both domains; in the
Decimal domain it is the remainder of truncating division and its sign
follows the dividend (or is zero), while in the Rational domain it is the
remainder of floor division and its sign follows the divisor. -/
theorem mod_remainder_signs :
    (∀ ops v w, toDecimal w ≠ 0 →
      (truncQ (toDecimal v / toDecimal w)).natAbs < 10 ^ 50 →
      Calc2.binop ops decCfg .mod v w
          = .ok (.dec (toDecimal v - toDecimal w * truncQ (toDecimal v / toDecimal w)))
        ∧ (0 ≤ toDecimal v → 0 ≤ toDecimal v - toDecimal w * truncQ (toDecimal v / toDecimal w))
        ∧ (toDecimal v ≤ 0 → toDecimal v - toDecimal w * truncQ (toDecimal v / toDecimal w) ≤ 0))
    ∧ (∀ ops v w, toFraction w ≠ 0 →
      Calc2.binop ops fracCfg .mod v w
          = .ok (.frac (toFraction v - toFraction w * ⌊toFraction v / toFraction w⌋))
        ∧ (0 < toFraction w → 0 ≤ toFraction v - toFraction w * ⌊toFraction v / toFraction w⌋)
        ∧ (toFraction w < 0 →
            toFraction v - toFraction w * ⌊toFraction v / toFraction w⌋ ≤ 0)) := by
  constructor
  · intro ops v w hw hq
    refine ⟨?_, fun hv => truncRem_nonneg hw hv, fun hv => truncRem_nonpos hw hv⟩
    have hunfold : Calc2.binop ops decCfg .mod v w
        = (decMod (toDecimal v) (toDecimal w)).map .dec := rfl
    rw [hunfold]
    unfold decMod
    rw [if_neg hw, if_neg (not_le.mpr hq)]
    rfl
  · intro ops v w hw
    refine ⟨?_, fun hv => floorRem_nonneg hv, fun hv => floorRem_nonpos hv⟩
    have hunfold : Calc2.binop ops fracCfg .mod v w
        = (if toFraction w = 0 then .error .divZero
           else .ok (.frac (toFraction v
             - toFraction w * qfloor (toFraction v / toFraction w)))) := rfl
    rw [hunfold, if_neg hw, qfloor_eq]

/-- C5 witness: the general remainder characterisations instantiated at
dividend -7 and divisor 3 in both domains. -/
theorem mod_remainder_signs_witness :
    Calc2.binop noOps decCfg .mod (.int (-7)) (.int 3) = .ok (.dec (-1))
    ∧ Calc2.binop noOps fracCfg .mod (.int (-7)) (.int 3) = .ok (.frac 2) := by
  constructor
  · exact ((mod_remainder_signs.1 noOps (.int (-7)) (.int 3)
      (by decide) (by decide)).1).trans (by decide)
  · exact ((mod_remainder_signs.2 noOps (.int (-7)) (.int 3) (by decide)).1).trans (by decide)

/-- C6 counterexample: in decimal mode 0/0 fails with InvalidOperation, which
is not a ZeroDivisionError, rather than with DivisionByZero. -/
theorem zero_div_zero_invalid_operation :
    Calc2.evalNode noOps decCfg (.binop .div (.intLit 0) (.intLit 0)) = .error .invalidOp
    ∧ Calc2.evalNode noOps decCfg (.binop .div (.intLit 0) (.intLit 0)) ≠ .error .divZero :=
  ⟨by decide, by decide⟩

/-- C6 (amended): division by an exact zero divisor always fails, in both
modes and both variants; the kind is DivisionByZero (a ZeroDivisionError) in
Rational mode and, for a nonzero dividend, in Decimal mode, while 0/0 in
Decimal mode fails with InvalidOperation; in particular 1/0 fails with
DivisionByZero everywhere. -/
theorem div_by_zero_fails :
    (∀ ops v w, toFraction w = 0 → Calc2.binop ops fracCfg .div v w = .error .divZero)
    ∧ (∀ ops v w, toDecimal w = 0 → toDecimal v ≠ 0 →
        Calc2.binop ops decCfg .div v w = .error .divZero)
    ∧ (∀ ops v w, toDecimal w = 0 → toDecimal v = 0 →
        Calc2.binop ops decCfg .div v w = .error .invalidOp)
    ∧ (∀ ops v w, toFraction w = 0 → CalcBase.binop ops fracCfg .div v w = .error .divZero)
    ∧ Calc2.evalNode noOps fracCfg (.binop .div (.intLit 1) (.intLit 0)) = .error .divZero
    ∧ Calc2.evalNode noOps decCfg (.binop .div (.intLit 1) (.intLit 0)) = .error .divZero
    ∧ CalcBase.evalNode noOps fracCfg (.binop .div (.intLit 1) (.intLit 0)) = .error .divZero
    ∧ CalcBase.evalNode noOps decCfg (.binop .div (.intLit 1) (.intLit 0)) = .error .divZero := by
  refine ⟨?_, ?_, ?_, ?_, by decide, by decide, by decide, by decide⟩
  · intro ops v w hw
    have hunfold : Calc2.binop ops fracCfg .div v w
        = (if toFraction w = 0 then .error .divZero
           else .ok (.frac (toFraction v / toFraction w))) := rfl
    rw [hunfold, if_pos hw]
  · intro ops v w hw hv
    have hunfold : Calc2.binop ops decCfg .div v w
        = (decDiv (toDecimal v) (toDecimal w)).map .dec := rfl
    rw [hunfold]
    unfold decDiv
    rw [if_pos hw, if_neg hv]
    rfl
  · intro ops v w hw hv
    have hunfold : Calc2.binop ops decCfg .div v w
        = (decDiv (toDecimal v) (toDecimal w)).map .dec := rfl
    rw [hunfold]
    unfold decDiv
    rw [if_pos hw, if_pos hv]
    rfl
  · intro ops v w hw
    have hunfold : CalcBase.binop ops fracCfg .div v w
        = (if toFraction w = 0 then .error .divZero
           else .ok (.frac (toFraction v / toFraction w))) := rfl
    rw [hunfold, if_pos hw]

/-- C6 witness: the general zero-divisor cases instantiated at mixed concrete
operands. -/
theorem div_by_zero_fails_witness :
    Calc2.binop noOps fracCfg .div (.frac (1/2)) (.dec 0) = .error .divZero
    ∧ Calc2.binop noOps decCfg .div (.dec (1/2)) (.frac 0) = .error .divZero := by
  constructor
  · exact div_by_zero_fails.1 noOps (.frac (1/2)) (.dec 0) (by decide)
  · exact div_by_zero_fails.2.1 noOps (.dec (1/2)) (.frac 0) (by decide) (by decide)

/-- C7 counterexample: in the extended variant sqrt invoked with two
arguments does not fail with an arity error; the extra argument is silently
ignored and the call succeeds. -/
theorem sqrt_two_args_succeeds :
    Calc2.evalNode noOps fracCfg (.call "sqrt" (.ofList [.intLit 4, .intLit 9]))
      = .ok (.frac 2) := by decide

/-- C7 (amended): the base variant rejects every call whose argument count is
not 1 with a TypeError before dispatch; in the extended variant only log
checks its argument count (1 or 2, otherwise TypeError), while the other
whitelisted functions ignore extra arguments (sqrt with a second argument
behaves as with one) and fail with an untyped IndexError on zero arguments. -/
theorem arity_checks :
    (∀ ops c f es vs, CalcBase.evalArgs ops c es = .ok vs → vs.length ≠ 1 →
        CalcBase.evalNode ops c (.call f es) = .error .typeErr)
    ∧ (∀ ops c vs, vs.length ≠ 1 → vs.length ≠ 2 →
        Calc2.call ops c "log" vs = .error .typeErr)
    ∧ (∀ ops c v w rest, Calc2.call ops c "sqrt" (v :: w :: rest) = Calc2.call ops c "sqrt" [v])
    ∧ (∀ ops c, Calc2.call ops c "sin" [] = .error .indexErr)
    ∧ (∀ ops c, Calc2.call ops c "factorial" [] = .error .indexErr) := by
  refine ⟨?_, ?_, fun ops c v w rest => rfl, fun ops c => rfl, fun ops c => rfl⟩
  · intro ops c f es vs hes hlen
    simp only [CalcBase.evalNode]
    rw [hes]
    show (if vs.length ≠ 1 then Except.error Err.typeErr else CalcBase.call c f vs)
        = Except.error Err.typeErr
    rw [if_pos hlen]
  · intro ops c vs h1 h2
    match vs with
    | [] => rfl
    | [x] => exact absurd rfl h1
    | [x, b] => exact absurd rfl h2
    | x :: b :: y :: rest => rfl

/-- C7 witness: the base-variant arity rejection instantiated at a
two-argument call, and the extended variant log rejection at zero arguments. -/
theorem arity_checks_witness :
    CalcBase.evalNode noOps fracCfg (.call "sqrt" (.ofList [.intLit 4, .intLit 9]))
        = .error .typeErr
    ∧ Calc2.call noOps fracCfg "log" [] = .error .typeErr := by
  constructor
  · exact arity_checks.1 noOps fracCfg "sqrt" (.ofList [.intLit 4, .intLit 9])
      [.int 4, .int 9] rfl (by decide)
  · exact arity_checks.2.1 noOps fracCfg [] (by decide) (by decide)

/-- A chain of n unary Minus nodes over the literal 1. -/
def nestNeg : ℕ → Expr
  | 0 => .intLit 1
  | n + 1 => .unop .usub (nestNeg n)

/-- C8 counterexample: an expression tree 301 operators deep, beyond the
claimed minimum limit of 200, is evaluated normally by both variants with no
TooDeep failure (no such error kind exists in the code). -/
theorem deep_expression_evaluates :
    Calc2.evalNode noOps fracCfg (nestNeg 301) = .ok (.frac (-1))
    ∧ CalcBase.evalNode noOps fracCfg (nestNeg 301) = .ok (.frac (-1)) :=
  ⟨by decide, by decide⟩

/-- C8 (amended): neither variant enforces a nesting-depth limit: a Minus
chain of any depth n + 1 evaluates successfully to the alternating sign in
the extended and in the base evaluator alike, bounded only by the host
interpreter's own recursion limit, which is outside this model. -/
theorem no_depth_limit (n : ℕ) :
    Calc2.evalNode noOps fracCfg (nestNeg (n + 1)) = .ok (.frac ((-1) ^ (n + 1)))
    ∧ CalcBase.evalNode noOps fracCfg (nestNeg (n + 1)) = .ok (.frac ((-1) ^ (n + 1))) := by
  induction n with
  | zero => exact ⟨by decide, by decide⟩
  | succ m ih =>
    obtain ⟨ih2, ihB⟩ := ih
    have hstep : nestNeg (m + 2) = .unop .usub (nestNeg (m + 1)) := rfl
    have hpow : ((-1 : ℚ)) ^ (m + 2) = -((-1 : ℚ) ^ (m + 1)) := by
      rw [pow_succ]; ring
    constructor
    · rw [hstep]
      generalize hE : nestNeg (m + 1) = E at ih2 ⊢
      simp only [Calc2.evalNode]
      rw [ih2]
      show Except.ok (Value.frac (-((-1 : ℚ) ^ (m + 1))))
          = Except.ok (Value.frac ((-1) ^ (m + 2)))
      rw [hpow]
    · rw [hstep]
      generalize hE : nestNeg (m + 1) = E at ihB ⊢
      simp only [CalcBase.evalNode]
      rw [ihB]
      show Except.ok (Value.frac (-((-1 : ℚ) ^ (m + 1))))
          = Except.ok (Value.frac ((-1) ^ (m + 2)))
      rw [hpow]

/-- C10: sqrt of a negative operand fails in both modes and both variants:
the exact path hands a negative numerator to math.isqrt, which raises
ValueError, and the decimal path hands a negative Decimal to Decimal.sqrt,
which raises InvalidOperation.  Negative operands are int, Fraction or
Decimal values; raw floats cannot be negative, arising only from nonnegative
literals and the constants pi and e. -/
theorem sqrt_negative_fails (ops : TransOps) (v : Value)
    (hf : v.isFloat = false) (hneg : v.val < 0) :
    Calc2.call ops fracCfg "sqrt" [v] = .error .valueErr
    ∧ Calc2.call ops decCfg "sqrt" [v] = .error .invalidOp
    ∧ CalcBase.call fracCfg "sqrt" [v] = .error .valueErr
    ∧ CalcBase.call decCfg "sqrt" [v] = .error .invalidOp := by
  have hfr : (toFraction v).num < 0 := by
    cases v with
    | float q => simp [Value.isFloat] at hf
    | int n => exact num_neg_of_neg hneg
    | frac q => exact num_neg_of_neg hneg
    | dec q => exact num_neg_of_neg hneg
  have hdc : toDecimal v < 0 := by
    cases v with
    | float q => simp [Value.isFloat] at hf
    | int n => exact hneg
    | frac q => exact roundSig_neg hneg
    | dec q => exact hneg
  have h2 : Calc2.call ops decCfg "sqrt" [v] = .error .invalidOp := by
    have hunfold : Calc2.call ops decCfg "sqrt" [v] = (decSqrt (toDecimal v)).map .dec := rfl
    rw [hunfold]
    unfold decSqrt
    rw [if_pos hdc]
    rfl
  have h4 : CalcBase.call decCfg "sqrt" [v] = .error .invalidOp := by
    have hunfold : CalcBase.call decCfg "sqrt" [v] = (decSqrt (toDecimal v)).map .dec := rfl
    rw [hunfold]
    unfold decSqrt
    rw [if_pos hdc]
    rfl
  have h1 : Calc2.call ops fracCfg "sqrt" [v] = .error .valueErr := by
    have hunfold : Calc2.call ops fracCfg "sqrt" [v]
        = (if (toFraction v).num < 0 then .error .valueErr
           else if isqrt (toFraction v).num.toNat * isqrt (toFraction v).num.toNat
                    = (toFraction v).num.toNat
                  ∧ isqrt (toFraction v).den * isqrt (toFraction v).den = (toFraction v).den
                then .ok (.frac ((isqrt (toFraction v).num.toNat : ℚ)
                    / (isqrt (toFraction v).den : ℚ)))
                else (decSqrt (toDecimal (.frac (toFraction v)))).map .dec) := rfl
    rw [hunfold, if_pos hfr]
  have h3 : CalcBase.call fracCfg "sqrt" [v] = .error .valueErr := by
    have hunfold : CalcBase.call fracCfg "sqrt" [v]
        = (if (toFraction v).num < 0 then .error .valueErr
           else if isqrt (toFraction v).num.toNat * isqrt (toFraction v).num.toNat
                    = (toFraction v).num.toNat
                  ∧ isqrt (toFraction v).den * isqrt (toFraction v).den = (toFraction v).den
                then .ok (.frac ((isqrt (toFraction v).num.toNat : ℚ)
                    / (isqrt (toFraction v).den : ℚ)))
                else (decSqrt (toDecimal (.frac (toFraction v)))).map .dec) := rfl
    rw [hunfold, if_pos hfr]
  exact ⟨h1, h2, h3, h4⟩

/-- C10 witness: the negative-operand failures instantiated at the Fraction
-2. -/
theorem sqrt_negative_fails_witness :
    Calc2.call noOps fracCfg "sqrt" [.frac (-2)] = .error .valueErr
    ∧ Calc2.call noOps decCfg "sqrt" [.frac (-2)] = .error .invalidOp := by
  have h := sqrt_negative_fails noOps (.frac (-2)) (by decide) (by decide)
  exact ⟨h.1, h.2.1⟩

end Calculadora
